import Mathlib

/-!
# A verification development for the to-do list component (`src/App.js`)

The component keeps its whole state in React state variables.  Every event
handler is embedded as a pure function from the state before the event to an
`Outcome`; the derived values computed during rendering (`currentTasks`,
`activeTasks`, `completionPercentage`, `displayedTasks`) are embedded as
functions of the state.

Library functions the handlers call (`String.prototype.trim`, `parseInt`,
`Array.prototype.findIndex`, `Array.prototype.splice`, `Array.prototype.sort`,
`arrayMove` of `@dnd-kit/sortable`, `Math.round` and double-precision
arithmetic) are embedded from their published semantics.
-/

namespace TodoApp

/-! ## Data model -/

/-- A task object `{ id, text, completed, priority, dueDate }`.  The id is an
integer (a `Date.now()` timestamp); the field `dueDate` is `none` for the
JavaScript value `null`. -/
structure Task where
  id : Int
  text : String
  completed : Bool
  priority : String
  dueDate : Option String
deriving DecidableEq, Repr

/-- A category object `{ name, tasks }`. -/
structure Category where
  name : String
  tasks : List Task
deriving DecidableEq, Repr

/-- The React state variables of `App`, in the order of their `useState`
declarations (a `null` state value is `none`). -/
structure State where
  categories : List Category
  newCategory : String
  selectedCategoryIndex : Nat
  newTask : String
  showAll : Bool
  editingCategoryIndex : Option Nat
  editCategoryName : String
  theme : String
  taskPriority : String
  taskDueDate : String
  editingTaskId : Option Int
  editTaskPriority : String
  editTaskDueDate : String
deriving DecidableEq, Repr

/-- What running an event handler leads to. -/
inductive Outcome where
  /-- The handler ran to its end; the argument is the next state. -/
  | done (st : State)
  /-- The handler raised a `TypeError`; the argument is the state holding the
  updates enqueued before the error. -/
  | threw (st : State)
  /-- The handler stored an array with an `undefined` entry, which the next
  render cannot process. -/
  | crashed
deriving DecidableEq, Repr

/-- The state the component is in after an outcome, if it is still mounted. -/
def Outcome.next : Outcome → Option State
  | .done st => some st
  | .threw st => some st
  | .crashed => none

/-! ## JavaScript library functions -/

/-- The code points `String.prototype.trim` removes (ECMAScript `WhiteSpace`
and `LineTerminator`). -/
def isJsWhiteSpace (c : Char) : Bool :=
  [0x9, 0xA, 0xB, 0xC, 0xD, 0x20, 0xA0, 0x1680, 0x2028, 0x2029, 0x202F, 0x205F, 0x3000,
    0xFEFF].contains c.toNat
  || (0x2000 ≤ c.toNat && c.toNat ≤ 0x200A)

/-- The method `String.prototype.trim`: white space is removed from both ends. -/
def jsTrim (s : String) : String :=
  String.mk ((s.data.dropWhile isJsWhiteSpace).reverse.dropWhile isJsWhiteSpace).reverse

/-- A string that is empty or consists only of white space. -/
def isBlank (s : String) : Bool :=
  s.data.all isJsWhiteSpace

/-- The value of a digit of the given radix (10 or 16), if the character is one. -/
def digitValue (radix : Nat) (c : Char) : Option Nat :=
  if c.toNat ≥ 48 ∧ c.toNat ≤ 57 then some (c.toNat - 48)
  else if radix = 16 ∧ c.toNat ≥ 97 ∧ c.toNat ≤ 102 then some (c.toNat - 87)
  else if radix = 16 ∧ c.toNat ≥ 65 ∧ c.toNat ≤ 70 then some (c.toNat - 55)
  else none

/-- The longest run of digits at the front of the input, read in the given
radix: the number of digits read and their value. -/
def readDigits (radix : Nat) : List Char → Nat → Nat → Nat × Nat
  | [], count, acc => (count, acc)
  | c :: cs, count, acc =>
    match digitValue radix c with
    | some d => readDigits radix cs (count + 1) (acc * radix + d)
    | none => (count, acc)

/-- The function `parseInt(string)` without a radix argument; `none` is `NaN`.
Leading white space is skipped, a sign is read, a `0x` marker selects radix 16,
and the longest run of digits is the value (as an exact integer). -/
def parseInt (s : String) : Option Int :=
  let trimmed := s.data.dropWhile isJsWhiteSpace
  let negative := trimmed.head? = some '-'
  let unsigned :=
    match trimmed with
    | '+' :: rest => rest
    | '-' :: rest => rest
    | other => other
  let (radix, body) :=
    match unsigned with
    | '0' :: 'x' :: rest => (16, rest)
    | '0' :: 'X' :: rest => (16, rest)
    | other => (10, other)
  let (count, value) := readDigits radix body 0 0
  if count = 0 then none
  else if negative then some (-(value : Int))
  else some (value : Int)

/-- The method `Array.prototype.findIndex`: the index of the first element
satisfying the predicate, `-1` when there is none. -/
def findIndex (p : α → Bool) (xs : List α) : Int :=
  match xs.findIdx? p with
  | some i => (i : Int)
  | none => -1

/-- The position at which `splice` starts, for an array of the given length:
a negative start counts from the end, and the result is clamped to the array. -/
def spliceStart (len : Nat) (start : Int) : Nat :=
  if start < 0 then ((len : Int) + start).toNat else min start.toNat len

/-- The method `Array.prototype.splice(start, deleteCount, ...items)`: the
removed elements and the array after the call. -/
def splice (xs : List α) (start : Int) (deleteCount : Nat) (items : List α) :
    List α × List α :=
  let s := spliceStart xs.length start
  let d := min deleteCount (xs.length - s)
  ((xs.drop s).take d, xs.take s ++ items ++ xs.drop (s + d))

/-- The function `arrayMove(array, from, to)` of `@dnd-kit/sortable`:

    const newArray = array.slice();
    newArray.splice(to < 0 ? newArray.length + to : to, 0, newArray.splice(from, 1)[0]);
    return newArray;

The first argument of the outer `splice` is evaluated before the inner
`splice` shortens the array.  An entry `none` is `undefined` (the inner
`splice` removed nothing). -/
def arrayMove (array : List α) (fromIndex toIndex : Int) : List (Option α) :=
  let newArray := array.map some
  let start := if toIndex < 0 then (newArray.length : Int) + toIndex else toIndex
  let removed := splice newArray fromIndex 1 []
  let item : Option α := removed.1.head?.join
  (splice removed.2 start 0 [item]).2

/-- The elements of an array none of whose entries is `undefined`. -/
def allDefined : List (Option α) → Option (List α)
  | [] => some []
  | none :: _ => none
  | some x :: rest => (allDefined rest).map (x :: ·)

/-- One step of a stable sort: the element is placed before the first element
it does not have to follow (`cmp a b ≤ 0`). -/
def sortInsert (cmp : α → α → Int) (a : α) : List α → List α
  | [] => [a]
  | b :: rest => if cmp a b ≤ 0 then a :: b :: rest else b :: sortInsert cmp a rest

/-- The method `Array.prototype.sort(cmp)` on a copy of the array.  The sort is
stable (ECMAScript 2019); it is embedded as an insertion sort, which places
equal elements in their original order. -/
def jsSort (cmp : α → α → Int) (xs : List α) : List α :=
  xs.foldr (sortInsert cmp) []

/-- The number a boolean is converted to by the `-` operator. -/
def boolToNumber (b : Bool) : Int :=
  if b then 1 else 0

/-! ## Double-precision arithmetic on non-negative values

A non-negative finite double is held as a fraction of natural numbers.  The
exponent range is not bounded: the values computed from array lengths (below
`2 ^ 32`) stay far inside the normal range. -/

/-- The integer nearest to `n / d`, a tie going to the even neighbour. -/
def roundHalfEven (n d : Nat) : Nat :=
  let q := n / d
  let r := n % d
  if 2 * r < d then q
  else if d < 2 * r then q + 1
  else if q % 2 = 0 then q else q + 1

/-- The search behind `floorLog2`: at most `fuel` halvings. -/
def floorLog2Aux : Nat → Nat → Nat
  | 0, _ => 0
  | fuel + 1, n => if n ≥ 2 then floorLog2Aux fuel (n / 2) + 1 else 0

/-- The position of the leading binary digit of `n`, that is `Nat.log2 n`: the
number of times `n` can be halved before it drops below 2 (fewer than `n`
times). -/
def floorLog2 (n : Nat) : Nat :=
  floorLog2Aux n n

/-- The double nearest to `n / d` (round to nearest, ties to even), as a
fraction: the quotient is scaled into `[2 ^ 52, 2 ^ 53)`, rounded to an
integer, and scaled back. -/
def roundToDouble (n d : Nat) : Nat × Nat :=
  if n = 0 ∨ d = 0 then (0, 1)
  else
    let a := floorLog2 n
    let b := floorLog2 d
    -- the exponent of the quotient: `2 ^ e ≤ n / d < 2 ^ (e + 1)`
    let e : Int := if d * 2 ^ a ≤ n * 2 ^ b then (a : Int) - b else (a : Int) - b - 1
    -- `(n * 2 ^ up) / (d * 2 ^ down)` is the quotient scaled by `2 ^ (52 - e)`
    let up := (52 - e).toNat
    let down := (e - 52).toNat
    (roundHalfEven (n * 2 ^ up) (d * 2 ^ down) * 2 ^ down, 2 ^ up)

/-- The function `Math.round` on a non-negative double `n / d`: the nearest
integer, a tie going up. -/
def mathRound (x : Nat × Nat) : Nat :=
  (2 * x.1 + x.2) / (2 * x.2)

/-! ## Loading the store -/

/-- A value produced by `JSON.parse`.  Numbers are held by their integer
value (task ids are integer timestamps). -/
inductive JsonValue where
  | null
  | bool (b : Bool)
  | number (n : Int)
  | string (s : String)
  | array (items : List JsonValue)
  | object (fields : List (String × JsonValue))

/-- The local-storage entry under the key `categories`, as `JSON.parse` sees
it. -/
inductive StoredEntry where
  /-- There is no entry: `getItem` returns `null`. -/
  | absent
  /-- The entry is a text that is not JSON: `JSON.parse` raises a
  `SyntaxError`. -/
  | unparsable
  /-- The entry is the JSON text of the value. -/
  | parsed (v : JsonValue)

/-- The truthiness of a parsed value, as tested by `if (storedCategories)`. -/
def jsTruthy : JsonValue → Bool
  | .null => false
  | .bool b => b
  | .number n => n != 0
  | .string s => s != ""
  | .array _ => true
  | .object _ => true

/-- The property of an object, `none` when it has no such property. -/
def getField (fields : List (String × JsonValue)) (key : String) : Option JsonValue :=
  (fields.find? (fun kv => kv.1 == key)).map Prod.snd

/-- A parsed value read as a task `{ id, text, completed, priority, dueDate }`. -/
def decodeTask : JsonValue → Option Task
  | .object fields =>
    match getField fields "id", getField fields "text", getField fields "completed",
      getField fields "priority", getField fields "dueDate" with
    | some (.number id), some (.string text), some (.bool completed), some (.string priority),
        some .null =>
      some { id, text, completed, priority, dueDate := none }
    | some (.number id), some (.string text), some (.bool completed), some (.string priority),
        some (.string due) =>
      some { id, text, completed, priority, dueDate := some due }
    | _, _, _, _, _ => none
  | _ => none

/-- A parsed value read as a category `{ name, tasks }`. -/
def decodeCategory : JsonValue → Option Category
  | .object fields =>
    match getField fields "name", getField fields "tasks" with
    | some (.string name), some (.array items) =>
      (items.mapM decodeTask).map fun tasks => { name, tasks }
    | _, _ => none
  | _ => none

/-- A parsed value read as a list of categories: the well-formed persisted
values. -/
def decodeCategories : JsonValue → Option (List Category)
  | .array items => items.mapM decodeCategory
  | _ => none

/-- The default seed of the load effect. -/
def defaultCategories : List Category :=
  [{ name := "Home Tasks", tasks := [] },
   { name := "School Tasks", tasks := [] },
   { name := "Projects", tasks := [] }]

/-- What the load effect does to the `categories` state variable. -/
inductive LoadResult where
  /-- The call `setCategories` was made with a list of categories. -/
  | categories (cs : List Category)
  /-- The call `setCategories` was made with a value that is not a list of
  categories. -/
  | malformed (v : JsonValue)
  /-- The effect raised before calling `setCategories`. -/
  | syntaxError

/-- The load effect (`App.js`, lines 42-55), on the `categories` entry:

    const storedCategories = JSON.parse(localStorage.getItem('categories'));
    if (storedCategories) { setCategories(storedCategories); }
    else { setCategories([ ...the three default categories... ]); }

An absent entry gives `JSON.parse(null)`, which is `null`. -/
def loadCategories : StoredEntry → LoadResult
  | .unparsable => .syntaxError
  | .absent => .categories defaultCategories
  | .parsed v =>
    if jsTruthy v then
      match decodeCategories v with
      | some cs => .categories cs
      | none => .malformed v
    else .categories defaultCategories

/-- The state after the load effect has set the categories and the theme; the
other state variables hold their `useState` defaults. -/
def loadedState (cats : List Category) (storedTheme : String) : State :=
  { categories := cats
    newCategory := ""
    selectedCategoryIndex := 0
    newTask := ""
    showAll := true
    editingCategoryIndex := none
    editCategoryName := ""
    theme := storedTheme
    taskPriority := "Medium"
    taskDueDate := ""
    editingTaskId := none
    editTaskPriority := "Medium"
    editTaskDueDate := "" }

/-! ## Event handlers -/

/-- The handler `toggleTheme`. -/
def toggleTheme (st : State) : Outcome :=
  .done { st with theme := if st.theme = "light" then "dark" else "light" }

/-- The handler `addCategory` (lines 67-72). -/
def addCategory (st : State) : Outcome :=
  if jsTrim st.newCategory ≠ "" then
    .done { st with
      categories := st.categories ++ [{ name := st.newCategory, tasks := [] }]
      newCategory := "" }
  else .done st

/-- The handler `startRenameCategory` (lines 74-77). -/
def startRenameCategory (st : State) (index : Nat) : Outcome :=
  let st1 := { st with editingCategoryIndex := some index }
  match st.categories[index]? with
  | none => .threw st1
  | some cat => .done { st1 with editCategoryName := cat.name }

/-- The handler `saveRenameCategory` (lines 79-84). -/
def saveRenameCategory (st : State) (index : Nat) : Outcome :=
  match st.categories[index]? with
  | none => .threw st
  | some cat =>
    .done { st with
      categories := st.categories.set index { cat with name := st.editCategoryName }
      editingCategoryIndex := none }

/-- The call `categories.filter((_, i) => i !== index)`. -/
def filterOutIndex (index : Nat) (xs : List α) : List α :=
  (xs.enum.filter (fun p => p.1 != index)).map Prod.snd

/-- The handler `removeCategory` (lines 86-92). -/
def removeCategory (st : State) (index : Nat) : Outcome :=
  let updatedCategories := filterOutIndex index st.categories
  .done { st with
    categories := updatedCategories
    selectedCategoryIndex :=
      if st.selectedCategoryIndex ≥ updatedCategories.length then 0
      else st.selectedCategoryIndex }

/-- The click handler of a category tab (line 296). -/
def selectCategory (st : State) (index : Nat) : Outcome :=
  .done { st with selectedCategoryIndex := index }

/-- The handler `addTask` (lines 94-122); `now` is the value of `Date.now()`.
The state variable `selectedCategoryIndex` is never `null`, so
`selectedCategoryIndex ?? 0` is the index the handler closed over, also after
`setSelectedCategoryIndex(0)`. -/
def addTask (st : State) (now : Int) : Outcome :=
  if jsTrim st.newTask = "" then .done st
  else
    let emptyStore := st.categories.length = 0
    let updatedCategories : List Category :=
      if emptyStore then [{ name := "General Tasks", tasks := [] }] else st.categories
    let st1 := if emptyStore then { st with selectedCategoryIndex := 0 } else st
    let validIndex := st.selectedCategoryIndex
    let newTaskObj : Task :=
      { id := now
        text := st.newTask
        completed := false
        priority := st.taskPriority
        dueDate := if st.taskDueDate = "" then none else some st.taskDueDate }
    match updatedCategories[validIndex]? with
    | none => .threw st1
    | some cat =>
      .done { st1 with
        categories :=
          updatedCategories.set validIndex { cat with tasks := cat.tasks ++ [newTaskObj] }
        newTask := ""
        taskPriority := "Medium"
        taskDueDate := "" }

/-- The handler `deleteTask` (lines 125-131). -/
def deleteTask (st : State) (taskId : Int) : Outcome :=
  match st.categories[st.selectedCategoryIndex]? with
  | none => .threw st
  | some cat =>
    .done { st with
      categories := st.categories.set st.selectedCategoryIndex
        { cat with tasks := cat.tasks.filter (fun task => task.id != taskId) } }

/-- The array after the first element satisfying `p`, the one `find` returns,
has been updated in place. -/
def updateFound (p : α → Bool) (f : α → α) : List α → List α
  | [] => []
  | x :: rest => if p x then f x :: rest else x :: updateFound p f rest

/-- The handler `toggleComplete` (lines 133-140). -/
def toggleComplete (st : State) (taskId : Int) : Outcome :=
  match st.categories[st.selectedCategoryIndex]? with
  | none => .threw st
  | some cat =>
    match cat.tasks.find? (fun t => t.id == taskId) with
    | none => .done st
    | some _ =>
      .done { st with
        categories := st.categories.set st.selectedCategoryIndex
          { cat with
            tasks := updateFound (fun t => t.id == taskId)
              (fun task => { task with completed := !task.completed }) cat.tasks } }

/-- The handler `startEditTask` (lines 141-145). -/
def startEditTask (st : State) (task : Task) : Outcome :=
  .done { st with
    editingTaskId := some task.id
    editTaskPriority := task.priority
    editTaskDueDate := task.dueDate.getD "" }

/-- The handler `saveEditTask` (lines 147-162). -/
def saveEditTask (st : State) (taskId : Int) : Outcome :=
  match st.categories[st.selectedCategoryIndex]? with
  | none => .threw st
  | some cat =>
    let tasks := cat.tasks.map fun t =>
      if t.id = taskId then
        { t with priority := st.editTaskPriority, dueDate := some st.editTaskDueDate }
      else t
    .done { st with
      categories := st.categories.set st.selectedCategoryIndex { cat with tasks := tasks }
      editingTaskId := none }

/-- The drag-end event of `@dnd-kit/core`: the id of the dragged item and the
id of the item it was dropped on (`over` is `null` when there is none). -/
structure DragEndEvent where
  activeId : String
  overId : Option String
deriving DecidableEq, Repr

/-- The handler `onDragEnd` (lines 164-174). -/
def onDragEnd (st : State) (event : DragEndEvent) : Outcome :=
  match event.overId with
  | none => .threw st
  | some overId =>
    if event.activeId ≠ overId then
      match st.categories[st.selectedCategoryIndex]? with
      | none => .threw st
      | some cat =>
        let tasks := cat.tasks
        let oldIndex := findIndex (fun t => some t.id == parseInt event.activeId) tasks
        let newIndex := findIndex (fun t => some t.id == parseInt overId) tasks
        match allDefined (arrayMove tasks oldIndex newIndex) with
        | none => .crashed
        | some moved =>
          .done { st with
            categories := st.categories.set st.selectedCategoryIndex { cat with tasks := moved } }
    else .done st

/-! ## Values derived during rendering (lines 264-270) -/

/-- The tasks of `currentCategory`, which is
`categories[selectedCategoryIndex] || { tasks: [] }`. -/
def currentCategoryTasks (st : State) : List Task :=
  match st.categories[st.selectedCategoryIndex]? with
  | some cat => cat.tasks
  | none => []

/-- The comparator `(a, b) => a.completed - b.completed`. -/
def compareCompleted (a b : Task) : Int :=
  boolToNumber a.completed - boolToNumber b.completed

/-- The value `currentTasks`. -/
def currentTasks (st : State) : List Task :=
  jsSort compareCompleted (currentCategoryTasks st)

/-- The value `activeTasks`. -/
def activeTasks (st : State) : List Task :=
  (currentTasks st).filter fun task => !task.completed

/-- The value `completedTasks`. -/
def completedTasks (st : State) : List Task :=
  (currentTasks st).filter fun task => task.completed

/-- The expression `Math.round((completed / total) * 100)` on two array
lengths, in double-precision arithmetic. -/
def roundedPercentage (completed total : Nat) : Nat :=
  let ratio := roundToDouble completed total
  mathRound (roundToDouble (ratio.1 * 100) ratio.2)

/-- The value `completionPercentage`. -/
def completionPercentage (st : State) : Nat :=
  if (currentTasks st).length > 0 then
    roundedPercentage (completedTasks st).length (currentTasks st).length
  else 0

/-- The value `displayedTasks`. -/
def displayedTasks (st : State) : List Task :=
  if st.showAll then currentTasks st else activeTasks st

/-! ## The component as a transition system -/

/-- The events of the user interface: one per event handler, with the
arguments the handler receives. -/
inductive Action where
  | toggleTheme
  | setNewCategory (value : String)
  | addCategory
  | startRenameCategory (index : Nat)
  | setEditCategoryName (value : String)
  | saveRenameCategory (index : Nat)
  | cancelRenameCategory
  | removeCategory (index : Nat)
  | selectCategory (index : Nat)
  | setNewTask (value : String)
  | setTaskPriority (value : String)
  | setTaskDueDate (value : String)
  | addTask (now : Int)
  | deleteTask (taskId : Int)
  | toggleComplete (taskId : Int)
  | startEditTask (task : Task)
  | setEditTaskPriority (value : String)
  | setEditTaskDueDate (value : String)
  | saveEditTask (taskId : Int)
  | cancelEditTask
  | toggleShowAll
  | onDragEnd (event : DragEndEvent)

/-- The outcome of an event in a state. -/
def perform (st : State) : Action → Outcome
  | .toggleTheme => toggleTheme st
  | .setNewCategory value => .done { st with newCategory := value }
  | .addCategory => addCategory st
  | .startRenameCategory index => startRenameCategory st index
  | .setEditCategoryName value => .done { st with editCategoryName := value }
  | .saveRenameCategory index => saveRenameCategory st index
  | .cancelRenameCategory => .done { st with editingCategoryIndex := none }
  | .removeCategory index => removeCategory st index
  | .selectCategory index => selectCategory st index
  | .setNewTask value => .done { st with newTask := value }
  | .setTaskPriority value => .done { st with taskPriority := value }
  | .setTaskDueDate value => .done { st with taskDueDate := value }
  | .addTask now => addTask st now
  | .deleteTask taskId => deleteTask st taskId
  | .toggleComplete taskId => toggleComplete st taskId
  | .startEditTask task => startEditTask st task
  | .setEditTaskPriority value => .done { st with editTaskPriority := value }
  | .setEditTaskDueDate value => .done { st with editTaskDueDate := value }
  | .saveEditTask taskId => saveEditTask st taskId
  | .cancelEditTask => .done { st with editingTaskId := none }
  | .toggleShowAll => .done { st with showAll := !st.showAll }
  | .onDragEnd event => onDragEnd st event

/-- The events that can occur in a state.  A tab is rendered for each index of
`categories` (line 292), so only those can be selected; the other handlers are
not restricted to the arguments the rendered elements pass. -/
def Action.enabled (st : State) : Action → Prop
  | .selectCategory index => index < st.categories.length
  | _ => True

/-- The states the component can be in at startup: the load effect has set the
categories from some `categories` entry and the theme. -/
def InitialState (st : State) : Prop :=
  ∃ entry cats storedTheme,
    loadCategories entry = .categories cats ∧ st = loadedState cats storedTheme

/-- The states reached from `start` by a sequence of events. -/
inductive Reachable (start : State) : State → Prop where
  | start : Reachable start start
  | step {st st' : State} (a : Action) :
      Reachable start st → a.enabled st → (perform st a).next = some st' →
      Reachable start st'

/-! ## Notions used in the statements -/

/-- The store of `st'` is the store of `st` with the selected category replaced
by `cat'`: the same number of categories, every other category as before, the
same selected index. -/
def ReplacesSelected (st st' : State) (cat' : Category) : Prop :=
  st'.categories.length = st.categories.length ∧
  st'.categories[st.selectedCategoryIndex]? = some cat' ∧
  (∀ j, j ≠ st.selectedCategoryIndex → st'.categories[j]? = st.categories[j]?) ∧
  st'.selectedCategoryIndex = st.selectedCategoryIndex

/-- A `categories` entry that is malformed: a text that is not JSON, or JSON
for a value that is not a list of categories. -/
def MalformedEntry : StoredEntry → Prop
  | .absent => False
  | .unparsable => True
  | .parsed v => decodeCategories v = none

/-- The task `addTask` creates in a state, at time `now`. -/
def newTaskOf (st : State) (now : Int) : Task :=
  { id := now
    text := st.newTask
    completed := false
    priority := st.taskPriority
    dueDate := if st.taskDueDate = "" then none else some st.taskDueDate }

/-- A category with the given number of completed tasks followed by the given
number of open tasks. -/
def sampleCategory (completed open_ : Nat) : Category :=
  { name := "Home Tasks"
    tasks :=
      (List.range completed).map (fun i =>
        { id := i, text := "t", completed := true, priority := "Medium", dueDate := none })
      ++ (List.range open_).map (fun i =>
        { id := completed + i, text := "t", completed := false, priority := "Medium",
          dueDate := none }) }

/-- A state with three categories, the second one selected, and filled-in
input fields. -/
def sampleState : State :=
  { loadedState [sampleCategory 1 2, sampleCategory 2 1, sampleCategory 0 0] "light" with
    selectedCategoryIndex := 1
    newCategory := "Errands"
    newTask := "Buy milk"
    taskPriority := "High"
    taskDueDate := "2025-01-31" }

/-- The sample state with blank input fields. -/
def blankInputState : State :=
  { sampleState with newCategory := " \t", newTask := "  \n" }

/-- A state with no category. -/
def emptyStoreState : State :=
  { loadedState [] "light" with newTask := "Buy milk" }

/-- The default seed after a task text has been typed. -/
def seedWithTaskText : State :=
  { loadedState defaultCategories "light" with newTask := "Buy milk" }

/-- A state with no category whose selected index is not 0. -/
def staleSelectionState : State :=
  { emptyStoreState with selectedCategoryIndex := 1 }

/-- A state whose selected category has 40 tasks, 23 of them completed. -/
def roundingState : State :=
  loadedState [sampleCategory 23 17] "light"

/-- A drag of the task with id 2 onto the task with id 0. -/
def sampleDrag : DragEndEvent :=
  { activeId := "2", overId := some "0" }

/-- The selected index is a valid category index, or there is no category and
the selected index is 0. -/
def SelectionOk (st : State) : Prop :=
  st.selectedCategoryIndex < st.categories.length ∨
    (st.categories.length = 0 ∧ st.selectedCategoryIndex = 0)

/-! ## Library facts -/

theorem jsTrim_eq_empty_iff (s : String) : jsTrim s = "" ↔ isBlank s = true := by
  unfold jsTrim isBlank
  have hmk : ∀ l : List Char, String.mk l = "" ↔ l = [] := by
    intro l
    constructor
    · intro h
      have := congrArg String.data h
      simpa using this
    · rintro rfl
      rfl
  rw [hmk, List.reverse_eq_nil_iff, List.dropWhile_eq_nil_iff, List.all_eq_true]
  constructor
  · intro h
    have hnil : s.data.dropWhile isJsWhiteSpace = [] := by
      cases hd : s.data.dropWhile isJsWhiteSpace with
      | nil => rfl
      | cons x rest =>
        have hx : isJsWhiteSpace x = true := h x (by simp [hd])
        have hhead := List.head_dropWhile_not isJsWhiteSpace s.data (by simp [hd])
        simp [hd, hx] at hhead
    exact List.dropWhile_eq_nil_iff.mp hnil
  · intro h x hx
    rw [List.mem_reverse] at hx
    exact h x ((List.dropWhile_sublist _).subset hx)

theorem filterOutIndex_enumFrom (xs : List α) :
    ∀ k i, ((xs.enumFrom k).filter (fun p => p.1 != k + i)).map Prod.snd
      = xs.take i ++ xs.drop (i + 1) := by
  induction xs with
  | nil => intro k i; simp
  | cons x rest ih =>
    intro k i
    cases i with
    | zero =>
      have hall : (rest.enumFrom (k + 1)).filter (fun p => p.1 != k) = rest.enumFrom (k + 1) := by
        apply List.filter_eq_self.mpr
        intro p hp
        have := List.le_fst_of_mem_enumFrom hp
        simp
        omega
      simp [List.enumFrom_cons, hall, List.enumFrom_map_snd]
    | succ j =>
      have hk : k + (j + 1) = (k + 1) + j := by omega
      have hne : (k != k + (j + 1)) = true := by simp
      simp only [List.enumFrom_cons, List.filter_cons, hne, if_true, List.map_cons,
        List.take_succ_cons, List.drop_succ_cons, List.cons_append]
      rw [hk, ih (k + 1) j]

theorem filterOutIndex_eq (index : Nat) (xs : List α) :
    filterOutIndex index xs = xs.take index ++ xs.drop (index + 1) := by
  have := filterOutIndex_enumFrom xs 0 index
  simpa [filterOutIndex, List.enum] using this

theorem replacesSelected_set (st st' : State) (cat cat' : Category)
    (hsel : st.categories[st.selectedCategoryIndex]? = some cat)
    (hcats : st'.categories = st.categories.set st.selectedCategoryIndex cat')
    (hidx : st'.selectedCategoryIndex = st.selectedCategoryIndex) :
    ReplacesSelected st st' cat' := by
  have hlt : st.selectedCategoryIndex < st.categories.length := by
    rcases List.getElem?_eq_some_iff.mp hsel with ⟨h, _⟩
    exact h
  refine ⟨by simp [hcats], ?_, ?_, hidx⟩
  · rw [hcats]
    simp [List.getElem?_set, hlt]
  · intro j hj
    rw [hcats, List.getElem?_set_ne (Ne.symm hj)]

theorem find?_append_first (p : α → Bool) (pre : List α) (t : α) (post : List α)
    (hpre : ∀ u ∈ pre, p u = false) (ht : p t = true) :
    (pre ++ t :: post).find? p = some t := by
  induction pre with
  | nil => simp [ht]
  | cons x rest ih =>
    have hx : p x = false := hpre x (by simp)
    have := ih (fun u hu => hpre u (by simp [hu]))
    simp [List.find?_cons, hx, this]

theorem updateFound_append_first (p : α → Bool) (f : α → α) (pre : List α) (t : α)
    (post : List α) (hpre : ∀ u ∈ pre, p u = false) (ht : p t = true) :
    updateFound p f (pre ++ t :: post) = pre ++ f t :: post := by
  induction pre with
  | nil => simp [updateFound, ht]
  | cons x rest ih =>
    have hx : p x = false := hpre x (by simp)
    have := ih (fun u hu => hpre u (by simp [hu]))
    simp [updateFound, hx, this]

theorem floorLog2Aux_eq : ∀ fuel n, n ≤ fuel → floorLog2Aux fuel n = Nat.log2 n := by
  intro fuel
  induction fuel with
  | zero =>
    intro n hn
    have : n = 0 := by omega
    subst this
    rw [Nat.log2]
    simp [floorLog2Aux]
  | succ f ih =>
    intro n hn
    rw [Nat.log2]
    by_cases h : n ≥ 2
    · simp only [floorLog2Aux, h, if_true]
      rw [ih (n / 2) (by omega)]
    · simp [floorLog2Aux, h]

theorem floorLog2_eq (n : Nat) : floorLog2 n = Nat.log2 n :=
  floorLog2Aux_eq n n (Nat.le_refl n)

theorem sortInsert_open (a : Task) (ha : a.completed = false) (l : List Task) :
    sortInsert compareCompleted a l = a :: l := by
  cases l with
  | nil => rfl
  | cons b rest =>
    have : compareCompleted a b ≤ 0 := by
      unfold compareCompleted boolToNumber
      rw [ha]
      cases b.completed <;> simp
    simp [sortInsert, this]

theorem sortInsert_completed (a : Task) (ha : a.completed = true) (done_ : List Task)
    (hdone : ∀ t ∈ done_, t.completed = true) :
    ∀ open_ : List Task, (∀ t ∈ open_, t.completed = false) →
      sortInsert compareCompleted a (open_ ++ done_) = open_ ++ a :: done_ := by
  intro open_
  induction open_ with
  | nil =>
    intro _
    cases done_ with
    | nil => rfl
    | cons c rest =>
      have hc : c.completed = true := hdone c (by simp)
      simp [sortInsert, compareCompleted, boolToNumber, ha, hc]
  | cons b rest ih =>
    intro hopen
    have hb : b.completed = false := hopen b (by simp)
    have := ih (fun t ht => hopen t (by simp [ht]))
    simp [sortInsert, compareCompleted, boolToNumber, ha, hb, this]

theorem jsSort_compareCompleted (xs : List Task) :
    jsSort compareCompleted xs
      = xs.filter (fun t => !t.completed) ++ xs.filter (fun t => t.completed) := by
  induction xs with
  | nil => rfl
  | cons a rest ih =>
    have hstep : jsSort compareCompleted (a :: rest)
        = sortInsert compareCompleted a (jsSort compareCompleted rest) := rfl
    rw [hstep, ih]
    cases ha : a.completed with
    | false =>
      rw [sortInsert_open a ha]
      simp [List.filter_cons, ha]
    | true =>
      rw [sortInsert_completed a ha _ (by intro t ht; simpa using (List.mem_filter.mp ht).2) _
        (by intro t ht; simpa using (List.mem_filter.mp ht).2)]
      simp [List.filter_cons, ha]

theorem findIndex_of_exists (p : α → Bool) (xs : List α) (h : ∃ t ∈ xs, p t = true) :
    ∃ i, i < xs.length ∧ findIndex p xs = (i : Int) := by
  unfold findIndex
  cases hfind : xs.findIdx? p with
  | none =>
    obtain ⟨t, ht, hp⟩ := h
    rw [List.findIdx?_eq_none_iff] at hfind
    rw [hfind t ht] at hp
    cases hp
  | some i =>
    obtain ⟨hlt, _⟩ := List.findIdx?_eq_some_iff_getElem.mp hfind
    exact ⟨i, hlt, rfl⟩

theorem allDefined_map_some (xs : List α) : allDefined (xs.map some) = some xs := by
  induction xs with
  | nil => rfl
  | cons x rest ih => simp [allDefined, ih]

theorem arrayMove_valid (xs : List α) (i j : Nat) (hi : i < xs.length) (hj : j < xs.length) :
    arrayMove xs (i : Int) (j : Int)
      = (((xs.take i ++ xs.drop (i + 1)).take j ++ [xs.get ⟨i, hi⟩]
          ++ (xs.take i ++ xs.drop (i + 1)).drop j).map some) := by
  have hstart : ¬ ((j : Int) < 0) := by omega
  have hfrom : spliceStart (xs.map some).length (i : Int) = i := by
    unfold spliceStart
    have : ¬ ((i : Int) < 0) := by omega
    simp only [this, if_false, List.length_map, Int.toNat_ofNat]
    omega
  have hcount : min 1 ((xs.map some).length - i) = 1 := by
    simp only [List.length_map]
    omega
  have hremoved : ((xs.map some).drop i).take 1 = [some (xs.get ⟨i, hi⟩)] := by
    rw [← List.map_drop, List.drop_eq_getElem_cons hi]
    rfl
  have hrest : (xs.map some).take i ++ [] ++ (xs.map some).drop (i + 1)
      = (xs.take i ++ xs.drop (i + 1)).map some := by
    simp [List.map_take, List.map_drop]
  have hlen : (xs.take i ++ xs.drop (i + 1)).length = xs.length - 1 := by
    simp
    omega
  have hto : spliceStart ((xs.take i ++ xs.drop (i + 1)).map some).length (j : Int) = j := by
    unfold spliceStart
    simp only [hstart, if_false, List.length_map, Int.toNat_ofNat, hlen]
    omega
  unfold arrayMove
  simp only [hstart, if_false]
  simp only [splice, hfrom, hcount, hremoved, hrest, hto]
  simp [List.map_take, List.map_drop]

theorem arrayMove_perm (xs : List α) (i j : Nat) (hi : i < xs.length) (hj : j < xs.length) :
    ∃ ys, allDefined (arrayMove xs (i : Int) (j : Int)) = some ys ∧ ys.Perm xs := by
  refine ⟨(xs.take i ++ xs.drop (i + 1)).take j ++ [xs.get ⟨i, hi⟩]
    ++ (xs.take i ++ xs.drop (i + 1)).drop j, ?_, ?_⟩
  · rw [arrayMove_valid xs i j hi hj]
    exact allDefined_map_some _
  · have hsplit : xs = xs.take i ++ xs.get ⟨i, hi⟩ :: xs.drop (i + 1) := by
      conv_lhs => rw [← List.take_append_drop i xs, List.drop_eq_getElem_cons hi]
      rfl
    have h1 : ((xs.take i ++ xs.drop (i + 1)).take j ++ [xs.get ⟨i, hi⟩]
          ++ (xs.take i ++ xs.drop (i + 1)).drop j).Perm
        (xs.get ⟨i, hi⟩ :: (xs.take i ++ xs.drop (i + 1))) := by
      have := List.take_append_drop j (xs.take i ++ xs.drop (i + 1))
      calc ((xs.take i ++ xs.drop (i + 1)).take j ++ [xs.get ⟨i, hi⟩]
              ++ (xs.take i ++ xs.drop (i + 1)).drop j).Perm
            ([xs.get ⟨i, hi⟩] ++ (xs.take i ++ xs.drop (i + 1)).take j
              ++ (xs.take i ++ xs.drop (i + 1)).drop j) :=
            List.Perm.append_right _ List.perm_append_comm
        _ = xs.get ⟨i, hi⟩ :: (xs.take i ++ xs.drop (i + 1)) := by
            rw [List.append_assoc, this]
            rfl
    have h2 : (xs.get ⟨i, hi⟩ :: (xs.take i ++ xs.drop (i + 1))).Perm xs := by
      conv_rhs => rw [hsplit]
      exact List.perm_middle.symm
    exact h1.trans h2

/-! ## Categories -/

/-- C9: `addCategory` leaves the state as it is when the entered name is empty
or white space only; otherwise it appends one category with the entered name
and no tasks to the unchanged list (and clears the input field). -/
theorem addCategory_spec (st : State) :
    addCategory st = .done
      (if isBlank st.newCategory then st
       else { st with
         categories := st.categories ++ [{ name := st.newCategory, tasks := [] }]
         newCategory := "" }) := by
  unfold addCategory
  by_cases h : isBlank st.newCategory = true
  · have : jsTrim st.newCategory = "" := (jsTrim_eq_empty_iff _).mpr h
    simp [h, this]
  · have : jsTrim st.newCategory ≠ "" := fun e => h ((jsTrim_eq_empty_iff _).mp e)
    simp [h, this]

/-- C3: for a valid index `i`, `removeCategory i` yields the category list with
the category at position `i` removed and the others in their order (one
category fewer), and the selected index becomes 0 when it is out of range for
the new list and stays as it is otherwise. -/
theorem removeCategory_spec (st : State) (i : Nat) (hi : i < st.categories.length) :
    ∃ st', removeCategory st i = .done st' ∧
      st'.categories = st.categories.take i ++ st.categories.drop (i + 1) ∧
      st'.categories.length + 1 = st.categories.length ∧
      st'.selectedCategoryIndex =
        (if st.selectedCategoryIndex ≥ st'.categories.length then 0
         else st.selectedCategoryIndex) := by
  refine ⟨_, rfl, ?_, ?_, ?_⟩
  · exact filterOutIndex_eq i st.categories
  · show (filterOutIndex i st.categories).length + 1 = st.categories.length
    rw [filterOutIndex_eq]
    simp
    omega
  · rfl

theorem removeCategory_spec_witness :
    1 < sampleState.categories.length ∧
    ∃ st', removeCategory sampleState 1 = .done st' ∧
      st'.categories = sampleState.categories.take 1 ++ sampleState.categories.drop (1 + 1) ∧
      st'.categories.length + 1 = sampleState.categories.length ∧
      st'.selectedCategoryIndex =
        (if sampleState.selectedCategoryIndex ≥ st'.categories.length then 0
         else sampleState.selectedCategoryIndex) :=
  ⟨by decide, removeCategory_spec sampleState 1 (by decide)⟩

/-! ## Adding a task -/

/-- C2: when the new-task text is empty or consists only of white space,
`addTask` leaves the whole state unchanged: the category list, every task list
and the selected index are as before. -/
theorem addTask_blank_unchanged (st : State) (now : Int) (h : isBlank st.newTask = true) :
    addTask st now = .done st := by
  unfold addTask
  simp [(jsTrim_eq_empty_iff _).mpr h]

theorem addTask_blank_unchanged_witness :
    isBlank blankInputState.newTask = true ∧
    addTask blankInputState 1700000000000 = .done blankInputState :=
  ⟨by decide, addTask_blank_unchanged blankInputState 1700000000000 (by decide)⟩

/-- The handler at an empty store whose selected index is 1, a state no
sequence of events leads to: `updatedCategories[1]` is `undefined`, the handler
raises before `setCategories`, and only the selection has been reset. -/
theorem addTask_stale_index_raises :
    addTask staleSelectionState 1700000000000
      = .threw { staleSelectionState with selectedCategoryIndex := 0 } := by
  decide

/-- The result of `addTask` for a text that is not blank: with a valid
selected index the new task is appended to the selected category; with an empty
category list and the selected index 0 the store becomes the single category
"General Tasks" holding the new task. -/
theorem addTask_result (st : State) (now : Int) (hne : isBlank st.newTask = false) :
    (∀ cat, st.categories[st.selectedCategoryIndex]? = some cat →
      ∃ st', addTask st now = .done st' ∧
        ReplacesSelected st st' { cat with tasks := cat.tasks ++ [newTaskOf st now] }) ∧
    (st.categories = [] → st.selectedCategoryIndex = 0 →
      ∃ st', addTask st now = .done st' ∧
        st'.categories = [{ name := "General Tasks", tasks := [newTaskOf st now] }] ∧
        st'.selectedCategoryIndex = 0) := by
  have htrim : jsTrim st.newTask ≠ "" := by
    intro e
    rw [(jsTrim_eq_empty_iff _).mp e] at hne
    cases hne
  constructor
  · intro cat hsel
    have hlen : st.categories.length ≠ 0 := by
      rcases List.getElem?_eq_some_iff.mp hsel with ⟨h, _⟩
      omega
    refine ⟨{ st with
        categories := st.categories.set st.selectedCategoryIndex
          { cat with tasks := cat.tasks ++ [newTaskOf st now] }
        newTask := ""
        taskPriority := "Medium"
        taskDueDate := "" }, ?_, replacesSelected_set st _ cat _ hsel rfl rfl⟩
    unfold addTask
    simp only [htrim, if_false, hlen, hsel]
    rfl
  · intro hcats hidx
    refine ⟨{ st with
        categories := [{ name := "General Tasks", tasks := [newTaskOf st now] }]
        selectedCategoryIndex := 0
        newTask := ""
        taskPriority := "Medium"
        taskDueDate := "" }, ?_, rfl, rfl⟩
    unfold addTask
    simp only [htrim, if_false, hcats, hidx]
    simp [newTaskOf]

/-! ## Toggling a task -/

/-- C10: with a valid selected index, `toggleComplete id` negates the completed
flag of the first task of the selected category that has the id and changes
nothing else (the task's other fields, the other tasks, their order, the other
categories, the selected index and the rest of the state); when no task of the
selected category has the id, the state is unchanged. -/
theorem toggleComplete_spec (st : State) (taskId : Int) (cat : Category)
    (hsel : st.categories[st.selectedCategoryIndex]? = some cat) :
    (∀ pre t post, cat.tasks = pre ++ t :: post → (∀ u ∈ pre, u.id ≠ taskId) →
      t.id = taskId →
      ∃ st', toggleComplete st taskId = .done st' ∧
        st' = { st with categories := st'.categories } ∧
        ReplacesSelected st st'
          { cat with tasks := pre ++ { t with completed := !t.completed } :: post }) ∧
    ((∀ u ∈ cat.tasks, u.id ≠ taskId) → toggleComplete st taskId = .done st) := by
  constructor
  · intro pre t post hsplit hpre ht
    have hpre' : ∀ u ∈ pre, (fun u : Task => u.id == taskId) u = false := by
      intro u hu
      simpa using hpre u hu
    have ht' : (fun u : Task => u.id == taskId) t = true := by simpa using ht
    have hfind := find?_append_first _ pre t post hpre' ht'
    have hupd := updateFound_append_first _
      (fun task : Task => { task with completed := !task.completed }) pre t post hpre' ht'
    refine ⟨{ st with
        categories := st.categories.set st.selectedCategoryIndex
          { cat with tasks := pre ++ { t with completed := !t.completed } :: post } },
      ?_, rfl, replacesSelected_set st _ cat _ hsel rfl rfl⟩
    unfold toggleComplete
    simp only [hsel, hsplit, hfind, hupd]
  · intro hnone
    have hfind : cat.tasks.find? (fun t => t.id == taskId) = none := by
      rw [List.find?_eq_none]
      intro u hu
      simpa using hnone u hu
    unfold toggleComplete
    simp only [hsel, hfind]

theorem toggleComplete_spec_witness :
    sampleState.categories[sampleState.selectedCategoryIndex]? = some (sampleCategory 2 1) ∧
    (∃ st', toggleComplete sampleState 1 = .done st' ∧
      st' = { sampleState with categories := st'.categories } ∧
      ReplacesSelected sampleState st'
        { sampleCategory 2 1 with
          tasks :=
            [{ id := 0, text := "t", completed := true, priority := "Medium", dueDate := none }]
            ++ { id := 1, text := "t", completed := !true, priority := "Medium",
                 dueDate := none }
            :: [{ id := 2, text := "t", completed := false, priority := "Medium",
                  dueDate := none }] }) ∧
    toggleComplete sampleState 99 = .done sampleState :=
  ⟨rfl,
   (toggleComplete_spec sampleState 1 (sampleCategory 2 1) rfl).1
     [{ id := 0, text := "t", completed := true, priority := "Medium", dueDate := none }]
     { id := 1, text := "t", completed := true, priority := "Medium", dueDate := none }
     [{ id := 2, text := "t", completed := false, priority := "Medium", dueDate := none }]
     (by decide) (by decide) rfl,
   (toggleComplete_spec sampleState 99 (sampleCategory 2 1) rfl).2 (by decide)⟩

/-! ## Derived values -/

/-- The displayed list in terms of the tasks of `currentCategory`. -/
theorem displayedTasks_of_current (st : State) :
    (displayedTasks { st with showAll := true }).Perm (currentCategoryTasks st) ∧
    (displayedTasks { st with showAll := true }).Pairwise
      (fun a b => a.completed = true → b.completed = true) ∧
    (displayedTasks { st with showAll := true }).filter (fun t => !t.completed)
      = (currentCategoryTasks st).filter (fun t => !t.completed) ∧
    (displayedTasks { st with showAll := true }).filter (fun t => t.completed)
      = (currentCategoryTasks st).filter (fun t => t.completed) ∧
    displayedTasks { st with showAll := false }
      = (currentCategoryTasks st).filter (fun t => !t.completed) := by
  have hshown : displayedTasks { st with showAll := true }
      = (currentCategoryTasks st).filter (fun t => !t.completed)
        ++ (currentCategoryTasks st).filter (fun t => t.completed) :=
    jsSort_compareCompleted (currentCategoryTasks st)
  have hactive : displayedTasks { st with showAll := false }
      = (jsSort compareCompleted (currentCategoryTasks st)).filter (fun t => !t.completed) :=
    rfl
  rw [hshown, hactive, jsSort_compareCompleted]
  refine ⟨?_, ?_, ?_, ?_, ?_⟩
  · exact List.Perm.trans List.perm_append_comm
      (List.filter_append_perm (fun t : Task => t.completed) (currentCategoryTasks st))
  · rw [List.pairwise_append]
    refine ⟨?_, ?_, ?_⟩
    · apply List.pairwise_of_forall_mem_list
      intro a ha b _ hac
      have := (List.mem_filter.mp ha).2
      simp [hac] at this
    · apply List.pairwise_of_forall_mem_list
      intro a _ b hb _
      simpa using (List.mem_filter.mp hb).2
    · intro a _ b hb _
      simpa using (List.mem_filter.mp hb).2
  · simp [List.filter_append, List.filter_filter]
  · simp [List.filter_append, List.filter_filter]
  · simp [List.filter_append, List.filter_filter]

theorem currentCategoryTasks_of_selected (st : State) (cat : Category)
    (hsel : st.categories[st.selectedCategoryIndex]? = some cat) :
    currentCategoryTasks st = cat.tasks := by
  unfold currentCategoryTasks
  rw [hsel]

/-- C7: let `cat` be the selected category, `st.categories[st.selectedCategoryIndex]`.
With the show-all toggle on, the displayed list is a permutation of the stored
task list `cat.tasks` in which no completed task comes before an incomplete one
and in which the incomplete tasks, and likewise the completed tasks, are in
their stored order; with the toggle off it is exactly the incomplete tasks of
`cat.tasks` in their stored order.  When the selected index denotes no
category, nothing is displayed. -/
theorem displayedTasks_spec (st : State) :
    (∀ cat, st.categories[st.selectedCategoryIndex]? = some cat →
      (displayedTasks { st with showAll := true }).Perm cat.tasks ∧
      (displayedTasks { st with showAll := true }).Pairwise
        (fun a b => a.completed = true → b.completed = true) ∧
      (displayedTasks { st with showAll := true }).filter (fun t => !t.completed)
        = cat.tasks.filter (fun t => !t.completed) ∧
      (displayedTasks { st with showAll := true }).filter (fun t => t.completed)
        = cat.tasks.filter (fun t => t.completed) ∧
      displayedTasks { st with showAll := false }
        = cat.tasks.filter (fun t => !t.completed)) ∧
    (st.categories[st.selectedCategoryIndex]? = none →
      displayedTasks { st with showAll := true } = [] ∧
      displayedTasks { st with showAll := false } = []) := by
  constructor
  · intro cat hsel
    have h := displayedTasks_of_current st
    rw [currentCategoryTasks_of_selected st cat hsel] at h
    exact h
  · intro hnone
    have hcur : currentCategoryTasks st = [] := by
      unfold currentCategoryTasks
      rw [hnone]
    have h := displayedTasks_of_current st
    rw [hcur] at h
    exact ⟨List.Perm.eq_nil h.1, h.2.2.2.2⟩

theorem displayedTasks_spec_witness :
    sampleState.categories[sampleState.selectedCategoryIndex]? = some (sampleCategory 2 1) ∧
    staleSelectionState.categories[staleSelectionState.selectedCategoryIndex]? = none ∧
    ((displayedTasks { sampleState with showAll := true }).Perm (sampleCategory 2 1).tasks ∧
      (displayedTasks { sampleState with showAll := true }).Pairwise
        (fun a b => a.completed = true → b.completed = true) ∧
      (displayedTasks { sampleState with showAll := true }).filter (fun t => !t.completed)
        = (sampleCategory 2 1).tasks.filter (fun t => !t.completed) ∧
      (displayedTasks { sampleState with showAll := true }).filter (fun t => t.completed)
        = (sampleCategory 2 1).tasks.filter (fun t => t.completed) ∧
      displayedTasks { sampleState with showAll := false }
        = (sampleCategory 2 1).tasks.filter (fun t => !t.completed)) ∧
    (displayedTasks { staleSelectionState with showAll := true } = [] ∧
      displayedTasks { staleSelectionState with showAll := false } = []) :=
  ⟨rfl, rfl,
   (displayedTasks_spec sampleState).1 (sampleCategory 2 1) rfl,
   (displayedTasks_spec staleSelectionState).2 rfl⟩

/-- C6 at a failing input: with 40 tasks of which 23 are completed the exact
percentage is 57.5, which rounds to 58 = floor((200 * 23 + 40) / (2 * 40)).
The double `23 / 40` is `5179139571476070 / 2 ^ 53`, just below 0.575; times
100 it is `8092405580431359 / 2 ^ 47`, which is `57.5 - 2 ^ (-47)` (printed as
57.49999999999999), and the displayed percentage is 57. -/
theorem completionPercentage_double_rounding :
    (currentCategoryTasks roundingState).length = 40 ∧
    ((currentCategoryTasks roundingState).filter (fun t => t.completed)).length = 23 ∧
    roundToDouble 23 40 = (5179139571476070, 2 ^ 53) ∧
    roundToDouble (5179139571476070 * 100) (2 ^ 53) = (8092405580431359, 2 ^ 47) ∧
    completionPercentage roundingState = 57 ∧
    (200 * 23 + 40) / (2 * 40) = 58 := by
  decide

/-! ## Loading -/

/-- C8 (as stated): every absent or malformed `categories` entry loads as the
default seed.  This fails for a text that is not JSON (the effect raises) and
for JSON of a truthy value that is not a category list, such as an object
without properties (the value is stored as it is). -/
theorem loadCategories_malformed_counterexample :
    ¬ ∀ entry : StoredEntry, entry = .absent ∨ MalformedEntry entry →
      loadCategories entry = .categories
        [{ name := "Home Tasks", tasks := [] }, { name := "School Tasks", tasks := [] },
         { name := "Projects", tasks := [] }] := by
  intro h
  have := h .unparsable (Or.inr trivial)
  simp [loadCategories] at this

/-- C8 (amended): when the `categories` entry is absent, or is JSON for one of
the falsy values `null`, `false`, `0` and the empty string, loading yields
exactly the default seed: the categories "Home Tasks", "School Tasks" and
"Projects", in that order, each with an empty task list. -/
theorem loadCategories_default_seed :
    defaultCategories =
      [{ name := "Home Tasks", tasks := [] }, { name := "School Tasks", tasks := [] },
       { name := "Projects", tasks := [] }] ∧
    loadCategories .absent = .categories defaultCategories ∧
    loadCategories (.parsed .null) = .categories defaultCategories ∧
    loadCategories (.parsed (.bool false)) = .categories defaultCategories ∧
    loadCategories (.parsed (.number 0)) = .categories defaultCategories ∧
    loadCategories (.parsed (.string "")) = .categories defaultCategories :=
  ⟨rfl, rfl, rfl, rfl, rfl, rfl⟩

/-! ## Reordering -/

/-- C5: with a valid selected index and a drag event whose active and over ids
denote tasks of the selected category, `onDragEnd` completes, and the selected
category's task list afterwards is a permutation of the list before (the same
tasks with the same multiplicities, hence the same length); no other category,
and nothing else in the state, is changed. -/
theorem onDragEnd_perm (st : State) (event : DragEndEvent) (cat : Category) (overId : String)
    (hsel : st.categories[st.selectedCategoryIndex]? = some cat)
    (hover : event.overId = some overId)
    (hactive : ∃ t ∈ cat.tasks, parseInt event.activeId = some t.id)
    (hoverTask : ∃ t ∈ cat.tasks, parseInt overId = some t.id) :
    ∃ st' tasks', onDragEnd st event = .done st' ∧
      st' = { st with categories := st'.categories } ∧
      tasks'.Perm cat.tasks ∧ tasks'.length = cat.tasks.length ∧
      ReplacesSelected st st' { cat with tasks := tasks' } := by
  by_cases hsame : event.activeId = overId
  · refine ⟨st, cat.tasks, ?_, rfl, List.Perm.refl _, rfl, ?_⟩
    · unfold onDragEnd
      simp [hover, hsame]
    · exact ⟨rfl, hsel, fun _ _ => rfl, rfl⟩
  · obtain ⟨i, hi, hold⟩ := findIndex_of_exists
      (fun t : Task => some t.id == parseInt event.activeId) cat.tasks
      (by obtain ⟨t, ht, hp⟩ := hactive; exact ⟨t, ht, by simp [hp]⟩)
    obtain ⟨j, hj, hnew⟩ := findIndex_of_exists
      (fun t : Task => some t.id == parseInt overId) cat.tasks
      (by obtain ⟨t, ht, hp⟩ := hoverTask; exact ⟨t, ht, by simp [hp]⟩)
    obtain ⟨moved, hmoved, hperm⟩ := arrayMove_perm cat.tasks i j hi hj
    refine ⟨{ st with
        categories := st.categories.set st.selectedCategoryIndex { cat with tasks := moved } },
      moved, ?_, rfl, hperm, hperm.length_eq, replacesSelected_set st _ cat _ hsel rfl rfl⟩
    unfold onDragEnd
    simp only [hover, hsel, hold, hnew, hmoved]
    simp [hsame]

theorem onDragEnd_perm_witness :
    sampleState.categories[sampleState.selectedCategoryIndex]? = some (sampleCategory 2 1) ∧
    sampleDrag.overId = some "0" ∧
    (∃ t ∈ (sampleCategory 2 1).tasks, parseInt sampleDrag.activeId = some t.id) ∧
    (∃ t ∈ (sampleCategory 2 1).tasks, parseInt "0" = some t.id) ∧
    ∃ st' tasks', onDragEnd sampleState sampleDrag = .done st' ∧
      st' = { sampleState with categories := st'.categories } ∧
      tasks'.Perm (sampleCategory 2 1).tasks ∧
      tasks'.length = (sampleCategory 2 1).tasks.length ∧
      ReplacesSelected sampleState st' { sampleCategory 2 1 with tasks := tasks' } :=
  ⟨rfl, rfl, by decide, by decide,
   onDragEnd_perm sampleState sampleDrag (sampleCategory 2 1) "0" rfl rfl (by decide)
     (by decide)⟩

/-! ## The selected index -/

theorem startRenameCategory_shape (st st' : State) (index : Nat)
    (h : (startRenameCategory st index).next = some st') :
    st'.categories.length = st.categories.length ∧
      st'.selectedCategoryIndex = st.selectedCategoryIndex := by
  unfold startRenameCategory at h
  split at h <;> simp [Outcome.next] at h <;> subst h <;> simp

theorem saveRenameCategory_shape (st st' : State) (index : Nat)
    (h : (saveRenameCategory st index).next = some st') :
    st'.categories.length = st.categories.length ∧
      st'.selectedCategoryIndex = st.selectedCategoryIndex := by
  unfold saveRenameCategory at h
  split at h <;> simp [Outcome.next] at h <;> subst h <;> simp

theorem deleteTask_shape (st st' : State) (taskId : Int)
    (h : (deleteTask st taskId).next = some st') :
    st'.categories.length = st.categories.length ∧
      st'.selectedCategoryIndex = st.selectedCategoryIndex := by
  unfold deleteTask at h
  split at h <;> simp [Outcome.next] at h <;> subst h <;> simp

theorem toggleComplete_shape (st st' : State) (taskId : Int)
    (h : (toggleComplete st taskId).next = some st') :
    st'.categories.length = st.categories.length ∧
      st'.selectedCategoryIndex = st.selectedCategoryIndex := by
  unfold toggleComplete at h
  split at h
  · simp [Outcome.next] at h
    subst h
    simp
  · split at h <;> simp [Outcome.next] at h <;> subst h <;> simp

theorem saveEditTask_shape (st st' : State) (taskId : Int)
    (h : (saveEditTask st taskId).next = some st') :
    st'.categories.length = st.categories.length ∧
      st'.selectedCategoryIndex = st.selectedCategoryIndex := by
  unfold saveEditTask at h
  split at h <;> simp [Outcome.next] at h <;> subst h <;> simp

theorem onDragEnd_shape (st st' : State) (event : DragEndEvent)
    (h : (onDragEnd st event).next = some st') :
    st'.categories.length = st.categories.length ∧
      st'.selectedCategoryIndex = st.selectedCategoryIndex := by
  unfold onDragEnd at h
  split at h
  · simp [Outcome.next] at h
    subst h
    simp
  · split at h
    · split at h
      · simp [Outcome.next] at h
        subst h
        simp
      · dsimp only at h
        split at h <;> simp [Outcome.next] at h
        subst h
        simp
    · simp [Outcome.next] at h
      subst h
      simp

theorem selectionOk_of_shape (st st' : State) (hinv : SelectionOk st)
    (h : st'.categories.length = st.categories.length ∧
      st'.selectedCategoryIndex = st.selectedCategoryIndex) : SelectionOk st' := by
  unfold SelectionOk at *
  omega

theorem addCategory_selectionOk (st st' : State) (hinv : SelectionOk st)
    (h : (addCategory st).next = some st') : SelectionOk st' := by
  unfold addCategory at h
  unfold SelectionOk at *
  split at h
  · simp only [Outcome.next, Option.some.injEq] at h
    subst h
    simp only [List.length_append, List.length_singleton]
    omega
  · simp only [Outcome.next, Option.some.injEq] at h
    subst h
    exact hinv

theorem removeCategory_selectionOk (st st' : State) (index : Nat)
    (h : (removeCategory st index).next = some st') : SelectionOk st' := by
  unfold removeCategory at h
  unfold SelectionOk
  simp [Outcome.next] at h
  subst h
  simp only
  split <;> omega

theorem addTask_selectionOk (st st' : State) (now : Int) (hinv : SelectionOk st)
    (h : (addTask st now).next = some st') : SelectionOk st' := by
  unfold addTask at h
  unfold SelectionOk at *
  split at h
  · simp [Outcome.next] at h
    subst h
    exact hinv
  · by_cases hempty : st.categories.length = 0
    · have hidx : st.selectedCategoryIndex = 0 := by omega
      simp [hempty, hidx, Outcome.next] at h
      subst h
      simp
    · simp only [hempty] at h
      split at h <;> simp [Outcome.next] at h <;> subst h <;> simp <;> omega

theorem perform_selectionOk (st st' : State) (a : Action) (hinv : SelectionOk st)
    (hen : a.enabled st) (h : (perform st a).next = some st') : SelectionOk st' := by
  cases a with
  | startRenameCategory index =>
    exact selectionOk_of_shape st st' hinv (startRenameCategory_shape st st' index h)
  | saveRenameCategory index =>
    exact selectionOk_of_shape st st' hinv (saveRenameCategory_shape st st' index h)
  | deleteTask taskId => exact selectionOk_of_shape st st' hinv (deleteTask_shape st st' taskId h)
  | toggleComplete taskId =>
    exact selectionOk_of_shape st st' hinv (toggleComplete_shape st st' taskId h)
  | saveEditTask taskId =>
    exact selectionOk_of_shape st st' hinv (saveEditTask_shape st st' taskId h)
  | onDragEnd event => exact selectionOk_of_shape st st' hinv (onDragEnd_shape st st' event h)
  | addCategory => exact addCategory_selectionOk st st' hinv h
  | removeCategory index => exact removeCategory_selectionOk st st' index h
  | addTask now => exact addTask_selectionOk st st' now hinv h
  | selectCategory index =>
    have hlt : index < st.categories.length := hen
    simp [perform, selectCategory, Outcome.next] at h
    subst h
    exact Or.inl hlt
  | _ =>
    simp [perform, toggleTheme, startEditTask, Outcome.next] at h
    subst h
    exact hinv

theorem initialState_selectionOk (st : State) (h : InitialState st) : SelectionOk st := by
  obtain ⟨_, cats, _, _, rfl⟩ := h
  show (0 : Nat) < cats.length ∨ (cats.length = 0 ∧ (0 : Nat) = 0)
  omega

theorem reachable_selectionOk (start st : State) (hstart : InitialState start)
    (hreach : Reachable start st) : SelectionOk st := by
  induction hreach with
  | start => exact initialState_selectionOk start hstart
  | step a _ hen hnext ih => exact perform_selectionOk _ _ a ih hen hnext

/-- C4 (as stated): in every reachable state the selected index is below the
number of categories.  This fails once every category has been removed: from
the default seed, removing the first category three times leaves no category
and the selected index 0. -/
theorem selectedIndex_in_bounds_counterexample :
    ¬ ∀ start st : State, InitialState start → Reachable start st →
      st.selectedCategoryIndex < st.categories.length := by
  intro h
  have hstart : InitialState (loadedState defaultCategories "light") :=
    ⟨.absent, defaultCategories, "light", rfl, rfl⟩
  have h1 : Reachable (loadedState defaultCategories "light")
      (loadedState [{ name := "School Tasks", tasks := [] },
        { name := "Projects", tasks := [] }] "light") :=
    Reachable.step (.removeCategory 0) Reachable.start trivial rfl
  have h2 : Reachable (loadedState defaultCategories "light")
      (loadedState [{ name := "Projects", tasks := [] }] "light") :=
    Reachable.step (.removeCategory 0) h1 trivial rfl
  have hreach : Reachable (loadedState defaultCategories "light") (loadedState [] "light") :=
    Reachable.step (.removeCategory 0) h2 trivial rfl
  have := h _ _ hstart hreach
  simp [loadedState] at this

/-- C4 (amended): in every state reachable from an initial loaded state by any
sequence of events (the operations of the claim, and every other event of the
user interface), the selected index is a valid category index, or the category
list is empty and the selected index is 0. -/
theorem selectedIndex_in_bounds (start st : State) (hstart : InitialState start)
    (hreach : Reachable start st) :
    st.selectedCategoryIndex < st.categories.length ∨
      (st.categories.length = 0 ∧ st.selectedCategoryIndex = 0) := by
  exact reachable_selectionOk start st hstart hreach

theorem selectedIndex_in_bounds_witness :
    InitialState (loadedState defaultCategories "light") ∧
    Reachable (loadedState defaultCategories "light")
      { loadedState defaultCategories "light" with selectedCategoryIndex := 2 } ∧
    ((2 : Nat) < defaultCategories.length ∨ (defaultCategories.length = 0 ∧ (2 : Nat) = 0)) :=
  ⟨⟨.absent, defaultCategories, "light", rfl, rfl⟩,
   Reachable.step (.selectCategory 2) Reachable.start
     (show 2 < defaultCategories.length by decide) rfl,
   selectedIndex_in_bounds (loadedState defaultCategories "light")
     { loadedState defaultCategories "light" with selectedCategoryIndex := 2 }
     ⟨.absent, defaultCategories, "light", rfl, rfl⟩
     (Reachable.step (.selectCategory 2) Reachable.start
       (show 2 < defaultCategories.length by decide) rfl)⟩

/-! ## Adding a task in a reachable state -/

/-- C1: in every state reached from an initial loaded state by any sequence of
events, the selected index is a valid category index or the category list is
empty, and for a new-task text that is not blank `addTask` adds exactly one
task.  With a selected category, its task list becomes the old list followed
by one new task (the typed text, not completed, the chosen priority, the chosen
due date or `null` when none was chosen), and every other category, the number
of categories and the selected index are unchanged.  With an empty category
list, the store becomes the single new category "General Tasks" holding the new
task, and the selection is 0. -/
theorem addTask_adds_one_task (start st : State) (now : Int) (hstart : InitialState start)
    (hreach : Reachable start st) (hne : isBlank st.newTask = false) :
    (st.selectedCategoryIndex < st.categories.length ∨ st.categories = []) ∧
    (∀ cat, st.categories[st.selectedCategoryIndex]? = some cat →
      ∃ st', addTask st now = .done st' ∧
        ReplacesSelected st st'
          { cat with
            tasks := cat.tasks ++
              [{ id := now
                 text := st.newTask
                 completed := false
                 priority := st.taskPriority
                 dueDate := if st.taskDueDate = "" then none else some st.taskDueDate }] }) ∧
    (st.categories = [] →
      ∃ st', addTask st now = .done st' ∧
        st'.categories =
          [{ name := "General Tasks"
             tasks :=
               [{ id := now
                  text := st.newTask
                  completed := false
                  priority := st.taskPriority
                  dueDate := if st.taskDueDate = "" then none else some st.taskDueDate }] }] ∧
        st'.selectedCategoryIndex = 0) := by
  have hok : SelectionOk st := reachable_selectionOk start st hstart hreach
  have hres := addTask_result st now hne
  refine ⟨?_, hres.1, ?_⟩
  · rcases hok with h | ⟨h, _⟩
    · exact Or.inl h
    · exact Or.inr (List.length_eq_zero.mp h)
  · intro hcats
    have hidx : st.selectedCategoryIndex = 0 := by
      rcases hok with h | ⟨_, h⟩
      · rw [hcats] at h
        cases h
      · exact h
    exact hres.2 hcats hidx

theorem addTask_adds_one_task_witness :
    InitialState (loadedState defaultCategories "light") ∧
    Reachable (loadedState defaultCategories "light") seedWithTaskText ∧
    isBlank seedWithTaskText.newTask = false ∧
    InitialState (loadedState [] "light") ∧
    Reachable (loadedState [] "light") emptyStoreState ∧
    isBlank emptyStoreState.newTask = false ∧
    (∃ st', addTask seedWithTaskText 1700000000000 = .done st' ∧
      ReplacesSelected seedWithTaskText st'
        { name := "Home Tasks"
          tasks :=
            [{ id := 1700000000000, text := "Buy milk", completed := false,
               priority := "Medium", dueDate := none }] }) ∧
    (∃ st', addTask emptyStoreState 1700000000000 = .done st' ∧
      st'.categories =
        [{ name := "General Tasks"
           tasks :=
             [{ id := 1700000000000, text := "Buy milk", completed := false,
                priority := "Medium", dueDate := none }] }] ∧
      st'.selectedCategoryIndex = 0) :=
  ⟨⟨.absent, defaultCategories, "light", rfl, rfl⟩,
   Reachable.step (.setNewTask "Buy milk") Reachable.start trivial rfl,
   by decide,
   ⟨.parsed (.array []), [], "light", rfl, rfl⟩,
   Reachable.step (.setNewTask "Buy milk") Reachable.start trivial rfl,
   by decide,
   (addTask_adds_one_task (loadedState defaultCategories "light") seedWithTaskText 1700000000000
     ⟨.absent, defaultCategories, "light", rfl, rfl⟩
     (Reachable.step (.setNewTask "Buy milk") Reachable.start trivial rfl)
     (by decide)).2.1 { name := "Home Tasks", tasks := [] } rfl,
   (addTask_adds_one_task (loadedState [] "light") emptyStoreState 1700000000000
     ⟨.parsed (.array []), [], "light", rfl, rfl⟩
     (Reachable.step (.setNewTask "Buy milk") Reachable.start trivial rfl)
     (by decide)).2.2 rfl⟩

end TodoApp
